import Mathlib

/-!
Shallow embedding of `src/main.go` of the prometheus-example-app repository
(a small Go HTTP server) together with proofs about the claims of its
specification.

Modelling conventions:
* Go `int` (64-bit) is modelled as `Int`; wrap-around on overflow is made
  explicit with `wrap64` at the operations where the Go program can overflow.
* `strconv.Atoi` (whose error the program discards) is modelled faithfully,
  including Go's behaviour of returning a clamped value together with a range
  error for out-of-range inputs (`ParseInt` semantics on a 64-bit platform).
* Handlers are pure functions from their path-parameter strings to a record of
  their observable effects (sleep duration, response status, response body,
  hashing work performed).
* The `http.ServeMux` dispatch (Go 1.22 pattern routing) is modelled on request
  paths represented as their list of slash-separated segments: the path string
  is "/" followed by the segments joined with "/".  Matching is
  most-specific-first, and the mux's trailing-slash 301 redirect (issued when a
  path has no exact match but path+"/" has one) is modelled explicitly.
* The bytes fed to the hasher by `crypto/rand.Read` are a parameter
  `chunks : Nat -> List Nat` (the i-th 1024-byte buffer content); SHA-256 is
  implemented concretely (FIPS 180-4).
-/

namespace PromApp

/-! ## Go 64-bit integer arithmetic -/

/-- Largest value of Go `int` on a 64-bit platform. -/
def intMax : Int := 9223372036854775807

/-- Smallest value of Go `int` on a 64-bit platform. -/
def intMin : Int := -9223372036854775808

/-- Two's-complement wrap-around of an integer into the `int64` range,
modelling Go's defined signed-overflow behaviour. -/
def wrap64 (x : Int) : Int :=
  (x + 9223372036854775808) % 18446744073709551616 - 9223372036854775808

/-! ## `strconv.Atoi`

`Atoi(s)` is `ParseInt(s, 10, 0)` converted to `int`.  On a 64-bit platform:
an empty string, a bare sign, or any non-digit character yields the value `0`
with a syntax error; a string whose magnitude exceeds the `int64` range yields
`MaxInt64` (resp. `MinInt64` for negative input) together with a range error.
The digit scan stops at the first offending character, and an overflow is
reported as soon as the accumulated magnitude exceeds `MaxUint64`, before the
remaining characters are examined. -/

/-- Result of Go's `strconv.ParseUint` digit loop (base 10, 64 bit):
either the accumulated value, a range overflow, or invalid input. -/
inductive ParseUintResult where
  | ok (v : Nat)
  | rangeErr
  | badInput
deriving DecidableEq, Repr

/-- Decimal digit value of a character, `none` for non-digits
(Go `strconv` base-10 digit test). -/
def digitVal (c : Char) : Option Nat :=
  if '0' ≤ c ∧ c ≤ '9' then some (c.toNat - 48) else none

/-- The digit-accumulation loop of Go `strconv.ParseUint` (base 10,
bitSize 64): `cutoff = MaxUint64/10 + 1`, `maxVal = MaxUint64`. -/
def parseUintLoop : List Char → Nat → ParseUintResult
  | [], n => .ok n
  | c :: cs, n =>
    match digitVal c with
    | none => .badInput
    | some d =>
      if 1844674407370955162 ≤ n then .rangeErr
      else if 18446744073709551615 < n * 10 + d then .rangeErr
      else parseUintLoop cs (n * 10 + d)

/-- Go `strconv.Atoi` on a 64-bit platform: returns the `int` value and a
flag that is `true` exactly when no error is returned.  The program in
`src/main.go` discards the flag and uses only the value. -/
def atoi (s : String) : Int × Bool :=
  match s.data with
  | [] => (0, false)
  | c :: cs =>
    let neg : Bool := c = '-'
    let ds : List Char := if c = '-' ∨ c = '+' then cs else c :: cs
    if ds = [] then (0, false)
    else
      match parseUintLoop ds 0 with
      | .badInput => (0, false)
      | .rangeErr => (if neg then intMin else intMax, false)
      | .ok un =>
        if neg = false ∧ 9223372036854775808 ≤ un then (intMax, false)
        else if neg = true ∧ 9223372036854775808 < un then (intMin, false)
        else ((if neg then -(un : Int) else (un : Int)), true)

/-- The integer value `strconv.Atoi` returns (the component the program
actually uses). -/
def atoiVal (s : String) : Int := (atoi s).1

/-- Whether `strconv.Atoi` succeeds without error (syntax or range). -/
def atoiOk (s : String) : Bool := (atoi s).2

/-! ## The simple handlers (`src/main.go` lines 55-64)

Each of these handlers ignores the request entirely (method, query
parameters, headers): it only writes a status code and possibly a body. -/

/-- `foundHandler`: status 200, fixed greeting body. -/
def foundHandler : Nat × String := (200, "Hello from example application.")

/-- `notfoundHandler`: status 404, empty body. -/
def notfoundHandler : Nat × String := (404, "")

/-- `internalErrorHandler`: status 500, empty body. -/
def internalErrorHandler : Nat × String := (500, "")

/-! ## `waitHandler` (`src/main.go` lines 66-75) -/

/-- Observable behaviour of one invocation of `waitHandler`. -/
structure WaitResponse where
  /-- Argument passed to `time.Sleep`, in nanoseconds:
  `time.Duration(waitSec) * time.Second` computed in `int64`. -/
  sleepNanos : Int
  /-- Response status code. -/
  status : Nat
  /-- Response body. -/
  body : String
deriving DecidableEq, Repr

/-- `waitHandler`, as a function of the `waitSec` path value
(`r.PathValue("waitSec")` returns `""` when the parameter is absent). -/
def waitHandler (waitSecStr : String) : WaitResponse :=
  let waitSec0 := atoiVal waitSecStr
  let waitSec := if waitSec0 < 1 then 5 else waitSec0
  { sleepNanos := wrap64 (waitSec * 1000000000)
    status := 200
    body := "Waited for " ++ waitSecStr ++ " seconds." }

/-! ## `hashHandler` (`src/main.go` lines 77-97) -/

/-- Observable behaviour of one invocation of `hashHandler`.  The elapsed
wall-clock time is not modelled; the body is parameterised by its formatted
string. -/
structure HashResponse where
  /-- The post-default iteration count. -/
  iterations : Int
  /-- The post-default megabyte count. -/
  mb : Int
  /-- The arguments of the successive `hashRandomData` calls: `iterations`
  copies of `mb * 1024 * 1024` (computed in `int64`). -/
  hashCalls : List Int
  /-- Response status code. -/
  status : Nat
  /-- Response body. -/
  body : String
deriving DecidableEq, Repr

/-- `hashHandler`, as a function of the `mb` and `iterations` path values
(`""` when absent) and of the formatted elapsed-time string. -/
def hashHandler (mbStr iterationsStr elapsed : String) : HashResponse :=
  let it0 := atoiVal iterationsStr
  let iterations := if it0 < 1 then 5 else it0
  let mb0 := atoiVal mbStr
  let mb := if mb0 < 1 then 5 else mb0
  { iterations := iterations
    mb := mb
    hashCalls := List.replicate iterations.toNat (wrap64 (mb * 1024 * 1024))
    status := 200
    body := "Hashing " ++ toString mb ++ " mb, " ++ toString iterations ++
      " times took " ++ elapsed }

/-! ## SHA-256 (FIPS 180-4), as used via `crypto/sha256`

Words are `Nat` values kept below `2 ^ 32` by explicit reduction `w32`.
Bytes are `Nat` values below `256`. -/

/-- Reduction into the 32-bit word range. -/
def w32 (n : Nat) : Nat := n % 4294967296

/-- 32-bit right rotation. -/
def rotr32 (n x : Nat) : Nat := w32 (x / 2 ^ n + x % 2 ^ n * 2 ^ (32 - n))

/-- Three-way bitwise exclusive or. -/
def xor3 (a b c : Nat) : Nat := Nat.xor (Nat.xor a b) c

/-- SHA-256 `Ch(x,y,z) = (x AND y) XOR ((NOT x) AND z)` (complement within
32 bits). -/
def shaCh (x y z : Nat) : Nat :=
  Nat.xor (Nat.land x y) (Nat.land (Nat.xor x 4294967295) z)

/-- SHA-256 `Maj(x,y,z)`. -/
def shaMaj (x y z : Nat) : Nat :=
  xor3 (Nat.land x y) (Nat.land x z) (Nat.land y z)

/-- SHA-256 `Σ0`. -/
def bigSigma0 (x : Nat) : Nat := xor3 (rotr32 2 x) (rotr32 13 x) (rotr32 22 x)

/-- SHA-256 `Σ1`. -/
def bigSigma1 (x : Nat) : Nat := xor3 (rotr32 6 x) (rotr32 11 x) (rotr32 25 x)

/-- SHA-256 `σ0`. -/
def smallSigma0 (x : Nat) : Nat := xor3 (rotr32 7 x) (rotr32 18 x) (x / 2 ^ 3)

/-- SHA-256 `σ1`. -/
def smallSigma1 (x : Nat) : Nat := xor3 (rotr32 17 x) (rotr32 19 x) (x / 2 ^ 10)

/-- The 64 SHA-256 round constants `K[0..63]` (FIPS 180-4 §4.2.2: the first
32 bits of the fractional parts of the cube roots of the first 64 primes),
written in decimal; `K[0] = 1116352408 = 0x428a2f98` and so on.  The test
vectors below pin them down. -/
def shaK : List Nat :=
  [1116352408, 1899447441, 3049323471, 3921009573, 961987163, 1508970993,
   2453635748, 2870763221, 3624381080, 310598401, 607225278, 1426881987,
   1925078388, 2162078206, 2614888103, 3248222580, 3835390401, 4022224774,
   264347078, 604807628, 770255983, 1249150122, 1555081692, 1996064986,
   2554220882, 2821834349, 2952996808, 3210313671, 3336571891, 3584528711,
   113926993, 338241895, 666307205, 773529912, 1294757372, 1396182291,
   1695183700, 1986661051, 2177026350, 2456956037, 2730485921, 2820302411,
   3259730800, 3345764771, 3516065817, 3600352804, 4094571909, 275423344,
   430227734, 506948616, 659060556, 883997877, 958139571, 1322822218,
   1537002063, 1747873779, 1955562222, 2024104815, 2227730452, 2361852424,
   2428436474, 2756734187, 3204031479, 3329325298]

/-- The SHA-256 working state: eight 32-bit words. -/
structure ShaState where
  a : Nat
  b : Nat
  c : Nat
  d : Nat
  e : Nat
  f : Nat
  g : Nat
  h : Nat
deriving DecidableEq, Repr

/-- The SHA-256 initial hash value `H(0)` (FIPS 180-4 §5.3.3), in decimal:
`1779033703 = 0x6a09e667` and so on. -/
def shaH0 : ShaState :=
  ⟨1779033703, 3144134277, 1013904242, 2773480762,
   1359893119, 2600822924, 528734635, 1541459225⟩

/-- One SHA-256 compression round. -/
def shaRound (k w : Nat) (s : ShaState) : ShaState :=
  let t1 := w32 (s.h + bigSigma1 s.e + shaCh s.e s.f s.g + k + w)
  let t2 := w32 (bigSigma0 s.a + shaMaj s.a s.b s.c)
  ⟨w32 (t1 + t2), s.a, s.b, s.c, w32 (s.d + t1), s.e, s.f, s.g⟩

/-- The 64-word message schedule of one block (the 16 block words extended
by 48 computed words). -/
def msgSchedule (block : List Nat) : List Nat :=
  (List.range 48).foldl
    (fun w _ =>
      let n := w.length
      w ++ [w32 (smallSigma1 (w.getD (n - 2) 0) + w.getD (n - 7) 0 +
                 smallSigma0 (w.getD (n - 15) 0) + w.getD (n - 16) 0)])
    (block.take 16)

/-- SHA-256 compression of one 16-word block into the running state. -/
def shaCompress (s : ShaState) (block : List Nat) : ShaState :=
  let ws := msgSchedule block
  let t := (List.range 64).foldl
    (fun st i => shaRound (shaK.getD i 0) (ws.getD i 0) st) s
  ⟨w32 (s.a + t.a), w32 (s.b + t.b), w32 (s.c + t.c), w32 (s.d + t.d),
   w32 (s.e + t.e), w32 (s.f + t.f), w32 (s.g + t.g), w32 (s.h + t.h)⟩

/-- SHA-256 padding of a byte message: append `0x80`, zero bytes up to 56
mod 64, then the bit length as 8 big-endian bytes. -/
def shaPad (msg : List Nat) : List Nat :=
  let l := msg.length
  let zeros := (119 - l % 64) % 64
  let bitLen := 8 * l % 18446744073709551616
  msg ++ [128] ++ List.replicate zeros 0 ++
    [bitLen / 2 ^ 56 % 256, bitLen / 2 ^ 48 % 256, bitLen / 2 ^ 40 % 256,
     bitLen / 2 ^ 32 % 256, bitLen / 2 ^ 24 % 256, bitLen / 2 ^ 16 % 256,
     bitLen / 2 ^ 8 % 256, bitLen % 256]

/-- Split a byte list into successive 64-byte blocks; the first argument is
a structural bound on the number of blocks (the list length more than
suffices), which keeps the recursion structural and hence reducible inside
proofs. -/
def toBlocksAux : Nat → List Nat → List (List Nat)
  | 0, _ => []
  | _, [] => []
  | n + 1, x :: xs => ((x :: xs).take 64) :: toBlocksAux n ((x :: xs).drop 64)

/-- Split a (padded) byte list into 64-byte blocks. -/
def toBlocks (l : List Nat) : List (List Nat) := toBlocksAux l.length l

/-- Assemble big-endian 32-bit words from bytes. -/
def toWords : List Nat → List Nat
  | b0 :: b1 :: b2 :: b3 :: rest =>
    (b0 * 16777216 + b1 * 65536 + b2 * 256 + b3) :: toWords rest
  | _ => []

/-- The four big-endian bytes of a 32-bit word. -/
def wordBytes (w : Nat) : List Nat :=
  [w / 16777216 % 256, w / 65536 % 256, w / 256 % 256, w % 256]

/-- The 32-byte digest encoded by a final SHA-256 state. -/
def shaDigest (s : ShaState) : List Nat :=
  wordBytes s.a ++ wordBytes s.b ++ wordBytes s.c ++ wordBytes s.d ++
  wordBytes s.e ++ wordBytes s.f ++ wordBytes s.g ++ wordBytes s.h

/-- SHA-256 of a byte message. -/
def sha256 (msg : List Nat) : List Nat :=
  shaDigest (((toBlocks (shaPad msg)).map toWords).foldl shaCompress shaH0)

/-! ## Hexadecimal encoding (`fmt.Sprintf("%x", h)`) -/

/-- Lowercase hexadecimal digit characters, as in Go `fmt` verb `%x`. -/
def hexDigitChar (n : Nat) : Char :=
  if n < 10 then Char.ofNat (48 + n) else Char.ofNat (87 + n)

/-- Lowercase hexadecimal encoding of a byte list: two digits per byte. -/
def hexOfBytes (bs : List Nat) : String :=
  ⟨(bs.map (fun b => [hexDigitChar (b / 16), hexDigitChar (b % 16)])).flatten⟩

/-- The sixteen characters Go `%x` can emit (the `fmt` package's lowercase
digit table "0123456789abcdef"). -/
def hexAlphabet : List Char := "0123456789abcdef".data

/-! ## `hashRandomData` (`src/main.go` lines 125-139)

The loop is translated with an explicit fuel argument counting loop-guard
evaluations: the Go loop terminates (after `k` iterations, with a given final
state) exactly when `hashLoopData` returns `some` of that state for some fuel
(any fuel `≥ k + 1`); it diverges exactly when every fuel yields `none`.
State components are the source's `bytesProcessed` (a Go `int`, so the
increment wraps), the number of completed iterations, and the bytes written to
the hasher so far.  `chunks i` is the content `crypto/rand.Read` places into
the 1024-byte buffer in iteration `i`; the running `h = hasher.Sum(nil)` is
the SHA-256 digest of the bytes written so far, and it is the initial empty
slice if the loop body never runs. -/

/-- The `for bytesProcessed < bytesToProcess` loop of `hashRandomData`. -/
def hashLoopData (chunks : Nat → List Nat) :
    Nat → Int → Int → Nat → List Nat → Option (Int × Nat × List Nat)
  | 0, _, _, _, _ => none
  | fuel + 1, target, processed, i, data =>
    if processed < target then
      hashLoopData chunks fuel target (wrap64 (processed + 1024)) (i + 1)
        (data ++ chunks i)
    else some (processed, i, data)

/-- `hashRandomData(bytesToProcess)`: the returned string, parameterised by
the random buffer contents and by the fuel bounding the observed loop steps. -/
def hashRandomData (chunks : Nat → List Nat) (bytesToProcess : Int)
    (fuel : Nat) : Option String :=
  match hashLoopData chunks fuel bytesToProcess 0 0 [] with
  | none => none
  | some (_, i, data) => some (if i = 0 then "" else hexOfBytes (sha256 data))

/-! ## The dispatcher (`src/main.go` lines 104-113)

A request path is `"/" ++ String.intercalate "/" segs` for a non-empty
segment list `segs` (so `"/"` is `[""]`, `"/wait/"` is `["wait", ""]`,
`"/wait/3"` is `["wait", "3"]`).  `muxMatch` computes, per Go 1.22
`http.ServeMux` most-specific-pattern matching over the eight registered
patterns, the handler whose pattern matches, together with whether the match
is exact (no multi-segment remainder); `"/"` matches every path, so there is
always a match.  `dispatch` adds the mux's trailing-slash behaviour: a path
with no exact match whose slash-appended form has one is answered with a 301
redirect instead of a handler.  None of the registered patterns names an HTTP
method, so matching ignores the request method.  (For `"/wait/"` the two
candidate patterns `/wait/{waitSec}` and `/wait/` route to the same handler
with the same empty `waitSec` path value, so the choice is not observable;
the same holds for the `/hash` family.) -/

/-- The handlers reachable through the mux. -/
inductive Routed where
  | foundR
  | errR
  | internalErrR
  | waitR
  | hashR
  | metricsR
deriving DecidableEq, Repr

/-- Most-specific pattern match: the routed handler and whether the match is
exact.  Branch by branch: `/` (exact only on the root path itself), the three
literal patterns `/err`, `/internal-err`, `/metrics` (always exact),
`/wait/{waitSec}` and `/wait/` (any path of two or more segments headed
`wait`; exact when the multi-segment remainder is empty, i.e. exactly two
segments), `/hash/{mb}/{iterations}` and `/hash/` (three or more segments
headed `hash`; exact at exactly three), `/hash/{mb}` (exactly two segments
headed `hash`), and the `/` catch-all for everything else (never exact away
from the root path). -/
def muxMatch (segs : List String) : Routed × Bool :=
  if segs = [""] then (.foundR, true)
  else if segs = ["err"] then (.errR, true)
  else if segs = ["internal-err"] then (.internalErrR, true)
  else if segs = ["metrics"] then (.metricsR, true)
  else if segs.take 1 = ["wait"] ∧ 2 ≤ segs.length then
    (.waitR, decide (segs.length = 2))
  else if segs.take 1 = ["hash"] ∧ 3 ≤ segs.length then
    (.hashR, decide (segs.length = 3))
  else if segs.take 1 = ["hash"] ∧ segs.length = 2 then (.hashR, true)
  else (.foundR, false)

/-- What the mux does with a request: serve a handler or issue a 301
trailing-slash redirect. -/
inductive Outcome where
  | routed (r : Routed)
  | redirect (target : List String)
deriving DecidableEq, Repr

/-- An incoming request: HTTP method and path segments. -/
structure Request where
  method : String
  pathSegs : List String
deriving DecidableEq, Repr

/-- `ServeMux` request handling: serve the exact match if there is one;
otherwise redirect when the slash-appended path has an exact match; otherwise
serve the (inexact) match. -/
def dispatch (req : Request) : Outcome :=
  let m := muxMatch req.pathSegs
  if m.2 then .routed m.1
  else if (muxMatch (req.pathSegs ++ [""])).2 then .redirect (req.pathSegs ++ [""])
  else .routed m.1

/-! ## Metrics instrumentation (`src/main.go` lines 30-38 and 99-113)

`httpRequestsTotal` is a counter vector labelled by (status code, method);
`httpRequestDuration` is a histogram vector labelled by (status code, handler,
method).  Both are modelled as the list of recorded samples.  Every mux entry
except `/metrics` is wrapped in `promhttp.InstrumentHandlerCounter`, which
adds one counter sample per completed request; only the root chain
(`foundChain`) additionally wraps `promhttp.InstrumentHandlerDuration` with
the static label `handler="found"`.  A mux-level redirect reaches no
registered handler, so no wrapper runs. -/

/-- The registered metrics state: recorded counter and histogram samples. -/
structure Metrics where
  httpRequestsTotal : List (Nat × String)
  httpRequestDuration : List (Nat × String × String)
deriving DecidableEq, Repr

/-- The freshly created registry: no samples. -/
def emptyMetrics : Metrics := ⟨[], []⟩

/-- The status code each handler writes on every request. -/
def statusOf : Routed → Nat
  | .foundR => 200
  | .errR => 404
  | .internalErrR => 500
  | .waitR => 200
  | .hashR => 200
  | .metricsR => 200

/-- Whether a dispatch outcome passes through `InstrumentHandlerCounter`. -/
def isCounted (o : Outcome) : Bool :=
  match o with
  | .routed .metricsR => false
  | .routed _ => true
  | .redirect _ => false

/-- Serve one request, updating the metrics registry. -/
def processRequest (m : Metrics) (req : Request) : Metrics :=
  match dispatch req with
  | .redirect _ => m
  | .routed .metricsR => m
  | .routed r =>
    { httpRequestsTotal := m.httpRequestsTotal ++ [(statusOf r, req.method)]
      httpRequestDuration :=
        if r = .foundR then
          m.httpRequestDuration ++ [(statusOf r, "found", req.method)]
        else m.httpRequestDuration }

/-- Serve a sequence of requests starting from the fresh registry. -/
def processAll (reqs : List Request) : Metrics :=
  reqs.foldl processRequest emptyMetrics

/-- The sum of the `http_requests_total` counter over all label combinations
present in the registry (the per-label value is the number of samples
recorded for that label). -/
def counterTotal (m : Metrics) : Nat :=
  Finset.sum m.httpRequestsTotal.toFinset
    (fun lab => (↑m.httpRequestsTotal : Multiset (Nat × String)).count lab)

/-! ## Helper lemmas -/

/- FIPS 180-4 test vector: SHA-256 of the empty message. -/
set_option maxRecDepth 10000 in
example :
    hexOfBytes (sha256 []) =
      "e3b0c44298fc1c149afbf4c8996fb92427ae41e4649b934ca495991b7852b855" := by
  decide

/- FIPS 180-4 test vector: SHA-256 of the three bytes of "abc". -/
set_option maxRecDepth 10000 in
example :
    hexOfBytes (sha256 [97, 98, 99]) =
      "ba7816bf8f01cfea414140de5dae2223b00361a396177a9cb410ff61f20015ad" := by
  decide

/-- `wrap64` is the identity on values already in the `int64` range. -/
theorem wrap64_eq_self (x : Int) (h1 : -9223372036854775808 ≤ x)
    (h2 : x < 9223372036854775808) : wrap64 x = x := by
  unfold wrap64; omega

/-- Unfolding equation for one evaluation of the hash loop guard. -/
theorem hashLoopData_succ (chunks : Nat → List Nat) (fuel : Nat)
    (target p : Int) (i : Nat) (data : List Nat) :
    hashLoopData chunks (fuel + 1) target p i data =
      if p < target then
        hashLoopData chunks fuel target (wrap64 (p + 1024)) (i + 1)
          (data ++ chunks i)
      else some (p, i, data) := rfl

/-- Out of fuel, the loop observation is `none`. -/
theorem hashLoopData_zero (chunks : Nat → List Nat) (target p : Int)
    (i : Nat) (data : List Nat) :
    hashLoopData chunks 0 target p i data = none := rfl

/-- The iteration counter of the hash loop never decreases. -/
theorem hashLoop_i_mono (chunks : Nat → List Nat) :
    ∀ (fuel : Nat) (target p : Int) (i : Nat) (data : List Nat)
      (p' : Int) (i' : Nat) (data' : List Nat),
      hashLoopData chunks fuel target p i data = some (p', i', data') →
      i ≤ i' := by
  intro fuel
  induction fuel with
  | zero =>
    intro target p i data p' i' data' h
    rw [hashLoopData_zero] at h
    exact absurd h (by simp)
  | succ f ih =>
    intro target p i data p' i' data' h
    rw [hashLoopData_succ] at h
    by_cases hc : p < target
    · rw [if_pos hc] at h
      have := ih _ _ _ _ _ _ _ h
      omega
    · rw [if_neg hc] at h
      simp only [Option.some.injEq, Prod.mk.injEq] at h
      omega

/-- With target `MaxInt64`, the loop's `bytesProcessed` (a multiple of 1024
wrapped in `int64`) never reaches the target, so the loop never exits. -/
theorem hashLoop_stuck (chunks : Nat → List Nat) :
    ∀ (fuel : Nat) (p : Int) (i : Nat) (data : List Nat),
      p % 1024 = 0 → -9223372036854775808 ≤ p →
      p ≤ 9223372036854774784 →
      hashLoopData chunks fuel 9223372036854775807 p i data = none := by
  intro fuel
  induction fuel with
  | zero => intro p i data _ _ _; rfl
  | succ f ih =>
    intro p i data h1 h2 h3
    rw [hashLoopData_succ, if_pos (by omega)]
    refine ih _ _ _ ?_ ?_ ?_
    · unfold wrap64; omega
    · unfold wrap64; omega
    · unfold wrap64; omega

/-- Running the loop from a 1024-aligned state below the least aligned value
`M ≥ target` reaches exactly `M`, given enough fuel. -/
theorem hashLoop_run (chunks : Nat → List Nat) (N M : Int)
    (hNM : N ≤ M) (hlt : M - 1024 < N) (hmod : M % 1024 = 0)
    (hhi : M ≤ 9223372036854774784) :
    ∀ (k : Nat) (p : Int) (i : Nat) (data : List Nat),
      0 ≤ p → p % 1024 = 0 → p ≤ M → M ≤ p + 1024 * (k : Int) →
      ∃ i' data',
        hashLoopData chunks (k + 1) N p i data = some (M, i', data') := by
  intro k
  induction k with
  | zero =>
    intro p i data hp0 hpm hpM hMp
    have hpe : p = M := by omega
    rw [hashLoopData_succ, if_neg (by omega)]
    exact ⟨i, data, by rw [hpe]⟩
  | succ k ih =>
    intro p i data hp0 hpm hpM hMp
    by_cases hpN : p < N
    · rw [hashLoopData_succ, if_pos hpN,
        wrap64_eq_self (p + 1024) (by omega) (by omega)]
      exact ih (p + 1024) (i + 1) (data ++ chunks i)
        (by omega) (by omega) (by omega) (by push_cast at hMp ⊢; omega)
    · have hpe : p = M := by omega
      rw [hashLoopData_succ, if_neg hpN]
      exact ⟨i, data, by rw [hpe]⟩

/-- The SHA-256 digest always consists of 32 bytes. -/
theorem sha256_length (msg : List Nat) : (sha256 msg).length = 32 := by
  simp [sha256, shaDigest, wordBytes]

/-- The four big-endian bytes of a word are below 256. -/
theorem wordBytes_lt (w : Nat) : ∀ b ∈ wordBytes w, b < 256 := by
  intro b hb
  simp only [wordBytes, List.mem_cons, List.not_mem_nil, or_false] at hb
  rcases hb with rfl | rfl | rfl | rfl <;> omega

/-- All digest bytes are below 256. -/
theorem sha256_bytes_lt (msg : List Nat) : ∀ b ∈ sha256 msg, b < 256 := by
  intro b hb
  simp only [sha256, shaDigest, List.mem_append] at hb
  rcases hb with ((((((h | h) | h) | h) | h) | h) | h) | h <;>
    exact wordBytes_lt _ _ h

/-- Hex encoding yields two characters per byte. -/
theorem hexOfBytes_length (bs : List Nat) :
    (hexOfBytes bs).length = 2 * bs.length := by
  induction bs with
  | nil => rfl
  | cons b t ih =>
    simp only [hexOfBytes, String.length, List.map_cons, List.flatten_cons,
      List.length_append, List.length_cons, List.length_nil,
      List.length_map] at ih ⊢
    omega

/-- Hex digits of values below 16 lie in the lowercase hex alphabet. -/
theorem hexDigitChar_mem (n : Nat) (h : n < 16) :
    hexDigitChar n ∈ hexAlphabet := by
  interval_cases n <;> decide

/-- Every character emitted by the hex encoding of genuine bytes is a
lowercase hex digit. -/
theorem hexOfBytes_chars (bs : List Nat) (hbs : ∀ b ∈ bs, b < 256) :
    ∀ c ∈ (hexOfBytes bs).data, c ∈ hexAlphabet := by
  induction bs with
  | nil => intro c hc; exact absurd hc (by simp [hexOfBytes])
  | cons b t ih =>
    intro c hc
    simp only [hexOfBytes, List.map_cons, List.flatten_cons, String.data,
      List.cons_append, List.nil_append, List.mem_cons] at hc
    rcases hc with rfl | rfl | hc
    · exact hexDigitChar_mem _ (by have := hbs b (by simp); omega)
    · exact hexDigitChar_mem _ (by have := hbs b (by simp); omega)
    · exact ih (fun x hx => hbs x (by simp [hx])) c hc

/-- The label-wise counter sum is the number of recorded counter samples. -/
theorem counterTotal_eq_length (m : Metrics) :
    counterTotal m = m.httpRequestsTotal.length := by
  unfold counterTotal
  have h := Multiset.toFinset_sum_count_eq
    (↑m.httpRequestsTotal : Multiset (Nat × String))
  simp only [Multiset.coe_card] at h
  exact h

/-- Per-request counter growth: one sample exactly when the outcome passes
through the counter wrapper. -/
theorem counter_per_request (m : Metrics) (req : Request) :
    (processRequest m req).httpRequestsTotal.length =
      m.httpRequestsTotal.length +
        (if isCounted (dispatch req) then 1 else 0) := by
  rcases h : dispatch req with r | t
  · cases r <;> simp [processRequest, isCounted, h]
  · simp [processRequest, isCounted, h]

/-- Folded counter growth over a request sequence. -/
theorem counter_foldl (reqs : List Request) :
    ∀ m : Metrics,
      (reqs.foldl processRequest m).httpRequestsTotal.length =
        m.httpRequestsTotal.length +
          reqs.countP (fun r => isCounted (dispatch r)) := by
  induction reqs with
  | nil => intro m; simp
  | cons r t ih =>
    intro m
    simp only [List.foldl_cons, List.countP_cons]
    rw [ih, counter_per_request]
    split <;> omega

/-- Per-request histogram growth: a sample exactly for the root chain. -/
theorem duration_per_request (m : Metrics) (req : Request) :
    (processRequest m req).httpRequestDuration =
      m.httpRequestDuration ++
        (if dispatch req = .routed .foundR then [(200, "found", req.method)]
         else []) := by
  rcases h : dispatch req with r | t
  · cases r <;> simp [processRequest, statusOf, h]
  · simp [processRequest, h]

/-- Folded histogram growth over a request sequence. -/
theorem duration_foldl (reqs : List Request) :
    ∀ m : Metrics,
      (reqs.foldl processRequest m).httpRequestDuration =
        m.httpRequestDuration ++
          (reqs.filter (fun r => decide (dispatch r = .routed .foundR))).map
            (fun r => (200, "found", r.method)) := by
  induction reqs with
  | nil => intro m; simp
  | cons r t ih =>
    intro m
    simp only [List.foldl_cons, List.filter_cons]
    rw [ih, duration_per_request]
    by_cases h : dispatch r = .routed .foundR <;> simp [h]

/-- A fallback-matched path (other than the named special cases) stays
inexact after appending an empty segment, so no trailing-slash redirect
fires.  The exact matches of slash-appended paths are classified here. -/
theorem muxAppend_exact (segs : List String)
    (h : (muxMatch (segs ++ [""])).2 = true) :
    segs = [] ∨ segs = ["wait"] ∨ segs = ["hash"] ∨
      (muxMatch segs).1 = .hashR := by
  rcases segs with _ | ⟨a, _ | ⟨b, _ | ⟨c, t⟩⟩⟩
  · exact Or.inl rfl
  · by_cases hw : a = "wait"
    · exact Or.inr (Or.inl (by rw [hw]))
    · by_cases hh : a = "hash"
      · exact Or.inr (Or.inr (Or.inl (by rw [hh])))
      · exact absurd h (by simp [muxMatch, hw, hh])
  · by_cases hh : a = "hash"
    · subst hh
      refine Or.inr (Or.inr (Or.inr ?_))
      simp [muxMatch]
    · by_cases hw : a = "wait"
      · subst hw
        exact absurd h (by simp [muxMatch])
      · exact absurd h (by simp [muxMatch, hw, hh])
  · by_cases hw : a = "wait"
    · subst hw
      refine absurd h ?_
      simp only [muxMatch, List.cons_append]
      simp [List.length_append]
    · by_cases hh : a = "hash"
      · subst hh
        refine absurd h ?_
        simp only [muxMatch, List.cons_append]
        simp [List.length_append]
      · exact absurd h (by simp [muxMatch, hw, hh])

/-! ## Claim theorems -/

/-- C1 counterexample: a completed request to `/metrics` is not counted by
`http_requests_total` (the `/metrics` entry is the one mux entry not wrapped
in `InstrumentHandlerCounter`), so after the one-request sequence
`[GET /metrics]` the label-wise counter sum is 0, not 1. -/
theorem metrics_request_not_counted :
    counterTotal (processAll [⟨"GET", ["metrics"]⟩]) ≠
      ([⟨"GET", ["metrics"]⟩] : List Request).length := by
  decide

/-- C1 (amended): the label-wise sum of `http_requests_total` equals the
number of requests dispatched to the seven counter-instrumented routes; in
particular it equals `N` after any sequence of `N` requests none of which is
served by `/metrics` or answered by a mux-level redirect. -/
theorem httpRequestsTotal_sum (reqs : List Request) :
    counterTotal (processAll reqs) =
      reqs.countP (fun r => isCounted (dispatch r)) ∧
    ((∀ r ∈ reqs, isCounted (dispatch r) = true) →
      counterTotal (processAll reqs) = reqs.length) := by
  have h : counterTotal (processAll reqs) =
      reqs.countP (fun r => isCounted (dispatch r)) := by
    rw [counterTotal_eq_length]
    unfold processAll
    rw [counter_foldl]
    simp [emptyMetrics]
  exact ⟨h, fun hall => by rw [h]; exact List.countP_eq_length.mpr hall⟩

/-- C1 witness: a concrete three-request sequence on instrumented routes
yields counter sum 3. -/
theorem httpRequestsTotal_sum_witness :
    counterTotal (processAll
      [⟨"GET", [""]⟩, ⟨"GET", ["err"]⟩, ⟨"POST", ["wait", "2"]⟩]) = 3 :=
  (httpRequestsTotal_sum _).2 (by decide)

/-- C2 counterexample: the 20-digit string "99999999999999999999" fails
`strconv.Atoi` parsing (range error), but because Go returns the clamped
value `MaxInt64` alongside the discarded error, the handler does not default
to the 5-second sleep the claim requires. -/
theorem wait_range_overflow_not_defaulted :
    atoiOk "99999999999999999999" = false ∧
    (waitHandler "99999999999999999999").sleepNanos ≠ 5 * 1000000000 := by
  decide

/-- C2 (amended): `waitHandler` always responds 200; it sleeps exactly 5
seconds whenever the `strconv.Atoi` value of the parameter is below 1 (which
covers an absent parameter, a syntactically invalid one, a negative or
negatively-overflowing one, and any parsed value below 1), and it sleeps
exactly `s` seconds for every parameter whose `Atoi` value is `s` with
`1 ≤ s ≤ 9223372036` (beyond that bound the `int64` nanosecond conversion
overflows; positive range overflow clamps to `MaxInt64` and is not
defaulted). -/
theorem waitHandler_sleep_spec (s : String) :
    (waitHandler s).status = 200 ∧
    (atoiVal s < 1 → (waitHandler s).sleepNanos = 5 * 1000000000) ∧
    (1 ≤ atoiVal s → atoiVal s ≤ 9223372036 →
      (waitHandler s).sleepNanos = atoiVal s * 1000000000) := by
  refine ⟨rfl, fun h => ?_, fun h1 h2 => ?_⟩
  · show wrap64 ((if atoiVal s < 1 then 5 else atoiVal s) * 1000000000) =
      5 * 1000000000
    rw [if_pos h]
    decide
  · show wrap64 ((if atoiVal s < 1 then 5 else atoiVal s) * 1000000000) =
      atoiVal s * 1000000000
    rw [if_neg (by omega)]
    unfold wrap64
    omega

/-- C2 witness: `/wait/3` sleeps exactly 3 seconds. -/
theorem waitHandler_sleep_spec_witness :
    (waitHandler "3").sleepNanos = 3000000000 := by
  have h := (waitHandler_sleep_spec "3").2.2 (by decide) (by decide)
  rw [h]
  decide

/-- C3 counterexample: a request to `/err` completes and is counted, yet
records no sample in `http_request_duration_seconds`: only the root chain
carries the duration wrapper. -/
theorem err_request_no_duration_sample :
    isCounted (dispatch ⟨"GET", ["err"]⟩) = true ∧
    (processAll [⟨"GET", ["err"]⟩]).httpRequestsTotal ≠ [] ∧
    (processAll [⟨"GET", ["err"]⟩]).httpRequestDuration = [] := by
  decide

/-- C3 (amended): the duration histogram records exactly the requests served
by the root route (`foundChain`), under the static handler label "found";
requests dispatched to the other mapped routes pass only through the counter
wrapper and leave no duration sample. -/
theorem duration_only_found_route (reqs : List Request) :
    (processAll reqs).httpRequestDuration =
      (reqs.filter (fun r => decide (dispatch r = .routed .foundR))).map
        (fun r => (200, "found", r.method)) := by
  unfold processAll
  rw [duration_foldl]
  simp [emptyMetrics]

/-- C4 counterexample: with `iterations` given as the 20-digit string
"99999999999999999999", `strconv.Atoi` fails with a range error but returns
the clamped `MaxInt64`, so the handler does not default to 5 iterations. -/
theorem hash_range_overflow_not_defaulted :
    atoiOk "99999999999999999999" = false ∧
    (hashHandler "1" "99999999999999999999" "t").iterations ≠ 5 := by
  decide

/-- C4 (amended): `hashHandler` always responds 200; `mb` and `iterations`
are parsed independently and each is replaced by 5 exactly when its `Atoi`
value is below 1 (absent, syntactically invalid, negative overflow, or a
parsed value below 1 — positive range overflow clamps to `MaxInt64` instead);
the hasher is called exactly `iterations` times, each with the `int64` value
of `mb * 1024 * 1024` (equal to the exact product whenever
`mb ≤ 8796093022207`); and the body names the post-default values in the
stated format. -/
theorem hashHandler_spec (mbStr iterationsStr elapsed : String) :
    (hashHandler mbStr iterationsStr elapsed).status = 200 ∧
    1 ≤ (hashHandler mbStr iterationsStr elapsed).iterations ∧
    1 ≤ (hashHandler mbStr iterationsStr elapsed).mb ∧
    (atoiVal iterationsStr < 1 →
      (hashHandler mbStr iterationsStr elapsed).iterations = 5) ∧
    (1 ≤ atoiVal iterationsStr →
      (hashHandler mbStr iterationsStr elapsed).iterations =
        atoiVal iterationsStr) ∧
    (atoiVal mbStr < 1 → (hashHandler mbStr iterationsStr elapsed).mb = 5) ∧
    (1 ≤ atoiVal mbStr →
      (hashHandler mbStr iterationsStr elapsed).mb = atoiVal mbStr) ∧
    (hashHandler mbStr iterationsStr elapsed).hashCalls =
      List.replicate
        (hashHandler mbStr iterationsStr elapsed).iterations.toNat
        (wrap64 ((hashHandler mbStr iterationsStr elapsed).mb *
          1024 * 1024)) ∧
    ((hashHandler mbStr iterationsStr elapsed).mb ≤ 8796093022207 →
      wrap64 ((hashHandler mbStr iterationsStr elapsed).mb * 1024 * 1024) =
        (hashHandler mbStr iterationsStr elapsed).mb * 1024 * 1024) ∧
    (hashHandler mbStr iterationsStr elapsed).body =
      "Hashing " ++ toString (hashHandler mbStr iterationsStr elapsed).mb ++
      " mb, " ++
      toString (hashHandler mbStr iterationsStr elapsed).iterations ++
      " times took " ++ elapsed := by
  have hit : (hashHandler mbStr iterationsStr elapsed).iterations =
      (if atoiVal iterationsStr < 1 then 5 else atoiVal iterationsStr) := rfl
  have hmb : (hashHandler mbStr iterationsStr elapsed).mb =
      (if atoiVal mbStr < 1 then 5 else atoiVal mbStr) := rfl
  refine ⟨rfl, ?_, ?_, ?_, ?_, ?_, ?_, rfl, ?_, rfl⟩
  · rw [hit]; split <;> omega
  · rw [hmb]; split <;> omega
  · intro h; rw [hit, if_pos h]
  · intro h; rw [hit, if_neg (by omega)]
  · intro h; rw [hmb, if_pos h]
  · intro h; rw [hmb, if_neg (by omega)]
  · intro h
    rw [hmb] at h ⊢
    by_cases hc : atoiVal mbStr < 1
    · rw [if_pos hc]
      decide
    · rw [if_neg hc] at h ⊢
      unfold wrap64
      omega

/-- C4 witness: `/hash/1/2` uses the parsed values. -/
theorem hashHandler_spec_witness :
    (hashHandler "1" "2" "t").iterations = atoiVal "2" ∧
    (hashHandler "1" "2" "t").mb = atoiVal "1" := by
  obtain ⟨-, -, -, -, h1, -, h2, -⟩ := hashHandler_spec "1" "2" "t"
  exact ⟨h1 (by decide), h2 (by decide)⟩

/-- C5: the wait response echoes the literal path value in the body, always
with status 200, even when the sleep was defaulted: `GET /wait/abc` sleeps 5
seconds yet reports "Waited for abc seconds.". -/
theorem waitHandler_body_literal (s : String) :
    (waitHandler s).status = 200 ∧
    (waitHandler s).body = "Waited for " ++ s ++ " seconds." ∧
    (waitHandler "abc").body = "Waited for abc seconds." ∧
    (waitHandler "abc").sleepNanos = 5 * 1000000000 :=
  ⟨rfl, rfl, by decide, by decide⟩

/-- C6 counterexample: at target `MaxInt64 = 9223372036854775807` the loop
never terminates: `bytesProcessed` is always a 1024-aligned `int64` value,
the largest of which is `2^63 - 1024`, strictly below the target, so the
guard never fails (the increment instead overflows past `MinInt64`). -/
theorem hashLoop_nontermination_maxint :
    ¬ ∃ (fuel : Nat) (out : Int × Nat × List Nat),
        hashLoopData (fun _ => List.replicate 1024 0) fuel
          9223372036854775807 0 0 [] = some out := by
  rintro ⟨fuel, out, hout⟩
  rw [hashLoop_stuck _ fuel 0 0 [] (by decide) (by decide) (by decide)]
    at hout
  exact Option.noConfusion hout

/-- C6 (amended): for every target `1 ≤ N ≤ 2^63 - 1024` the loop terminates
with `bytesProcessed = 1024 * ceil(N / 1024)`, which is at least `N` and
overshoots it by less than the 1024-byte buffer; for the remaining targets
(the 1023 values up to `MaxInt64`) it never terminates. -/
theorem hashLoop_terminates_bytes (chunks : Nat → List Nat) (N : Int)
    (h1 : 1 ≤ N) (h2 : N ≤ 9223372036854774784) :
    ∃ (fuel : Nat) (M : Int) (i : Nat) (data : List Nat),
      hashLoopData chunks fuel N 0 0 [] = some (M, i, data) ∧
      N ≤ M ∧ M < N + 1024 ∧
      M = ((1024 * ((N.toNat + 1023) / 1024) : Nat) : Int) := by
  obtain ⟨i, data, hrun⟩ :=
    hashLoop_run chunks N ((1024 * ((N.toNat + 1023) / 1024) : Nat) : Int)
      (by omega) (by omega) (by omega) (by omega)
      ((N.toNat + 1023) / 1024) 0 0 []
      (by omega) (by omega) (by omega) (by omega)
  exact ⟨(N.toNat + 1023) / 1024 + 1, _, i, data, hrun,
    by omega, by omega, rfl⟩

/-- C6 witness: target 2500 stops at 3072 bytes processed. -/
theorem hashLoop_terminates_bytes_witness :
    ∃ (fuel : Nat) (M : Int) (i : Nat) (data : List Nat),
      hashLoopData (fun _ => List.replicate 1024 0) fuel 2500 0 0 [] =
        some (M, i, data) ∧
      2500 ≤ M ∧ M < 2500 + 1024 ∧
      M = ((1024 * (((2500 : Int).toNat + 1023) / 1024) : Nat) : Int) :=
  hashLoop_terminates_bytes _ 2500 (by decide) (by decide)

/-- C7: whenever `hashRandomData` returns for a positive target, the return
value is the lowercase hex encoding of the SHA-256 digest of all bytes fed
to the hasher (the digest state after the final chunk), and it is a string
of exactly 64 characters drawn from the lowercase hex alphabet — for every
content of the random chunks. -/
theorem hashRandomData_hex_format (chunks : Nat → List Nat) (N : Int)
    (fuel : Nat) (s : String) (h1 : 1 ≤ N)
    (h2 : hashRandomData chunks N fuel = some s) :
    (∃ p i data, hashLoopData chunks fuel N 0 0 [] = some (p, i, data) ∧
        1 ≤ i ∧ s = hexOfBytes (sha256 data)) ∧
    s.length = 64 ∧ ∀ c ∈ s.data, c ∈ hexAlphabet := by
  unfold hashRandomData at h2
  rcases hloop : hashLoopData chunks fuel N 0 0 [] with _ | ⟨p, i, data⟩
  · rw [hloop] at h2
    exact absurd h2 (by simp)
  · rw [hloop] at h2
    have hi : 1 ≤ i := by
      rcases fuel with _ | f
      · rw [hashLoopData_zero] at hloop
        exact absurd hloop (by simp)
      · rw [hashLoopData_succ, if_pos (by omega)] at hloop
        have := hashLoop_i_mono chunks f N _ 1 _ _ _ _ hloop
        omega
    change some (if i = 0 then "" else hexOfBytes (sha256 data)) = some s
      at h2
    rw [if_neg (show ¬ i = 0 by omega)] at h2
    have hs : s = hexOfBytes (sha256 data) := by
      injection h2 with h3
      exact h3.symm
    refine ⟨⟨p, i, data, rfl, hi, hs⟩, ?_, ?_⟩
    · rw [hs, hexOfBytes_length, sha256_length]
    · rw [hs]
      exact hexOfBytes_chars _ (sha256_bytes_lt data)

/-- C7 witness: with all-zero chunks, target 1 and fuel 2 the hasher
returns, and the returned string has length 64. -/
theorem hashRandomData_hex_format_witness :
    ∃ s, hashRandomData (fun _ => List.replicate 1024 0) 1 2 = some s ∧
      s.length = 64 := by
  have hs : (hashRandomData (fun _ => List.replicate 1024 0) 1 2).isSome =
      true := by rfl
  exact ⟨_, (Option.some_get hs).symm,
    (hashRandomData_hex_format _ 1 2 _ (by decide)
      (Option.some_get hs).symm).2.1⟩

/-- C8: `/err` is always answered 404 with an empty body and
`/internal-err` 500 with an empty body, for every request method; the
registered patterns name no HTTP method, and the two handlers ignore the
request entirely (so query parameters and headers cannot influence the
response). -/
theorem err_routes_spec (method : String) :
    dispatch ⟨method, ["err"]⟩ = .routed .errR ∧
    notfoundHandler = (404, "") ∧
    dispatch ⟨method, ["internal-err"]⟩ = .routed .internalErrR ∧
    internalErrorHandler = (500, "") ∧
    statusOf .errR = 404 ∧ statusOf .internalErrR = 500 :=
  ⟨rfl, rfl, rfl, rfl, rfl, rfl⟩

/-- C9 counterexample: `/wait` matches only the catch-all root pattern, yet
the mux answers it with a 301 redirect to `/wait/` (the registered subtree
root), not with the root handler's 200 response. -/
theorem wait_path_redirects :
    (muxMatch ["wait"]).1 = .foundR ∧
    dispatch ⟨"GET", ["wait"]⟩ = .redirect ["wait", ""] ∧
    dispatch ⟨"GET", ["wait"]⟩ ≠ .routed .foundR := by
  decide

/-- C9 (amended): every request whose non-empty path matches none of the
non-root patterns — except `/wait` and `/hash`, which receive trailing-slash
301 redirects to `/wait/` and `/hash/` — is served by the root handler with
200 "Hello from example application."; in particular the mux never produces
a routing-level 404. -/
theorem unmatched_paths_served_by_root (req : Request)
    (h0 : req.pathSegs ≠ []) (h1 : (muxMatch req.pathSegs).1 = .foundR)
    (h2 : req.pathSegs ≠ ["wait"]) (h3 : req.pathSegs ≠ ["hash"]) :
    dispatch req = .routed .foundR ∧
    foundHandler = (200, "Hello from example application.") := by
  refine ⟨?_, rfl⟩
  simp only [dispatch]
  by_cases he : (muxMatch req.pathSegs).2 = true
  · rw [if_pos he, h1]
  · have hx : ¬ (muxMatch (req.pathSegs ++ [""])).2 = true := by
      intro hc
      rcases muxAppend_exact _ hc with h | h | h | h
      · exact h0 h
      · exact h2 h
      · exact h3 h
      · exact absurd (h1.symm.trans h) (by decide)
    rw [if_neg he, if_neg hx, h1]

/-- C9 witness: an unknown path is served by the root handler. -/
theorem unmatched_paths_served_by_root_witness :
    dispatch ⟨"GET", ["no-such-route"]⟩ = .routed .foundR :=
  (unmatched_paths_served_by_root ⟨"GET", ["no-such-route"]⟩ (by decide)
    (by decide) (by decide) (by decide)).1

/-- C10: for every non-positive target the loop body never runs (zero
iterations, no bytes written to the hasher) and `hashRandomData` returns the
empty string, not a 64-character digest. -/
theorem hashRandomData_nonpositive (chunks : Nat → List Nat) (N : Int)
    (fuel : Nat) (hN : N ≤ 0) (hf : 1 ≤ fuel) :
    hashLoopData chunks fuel N 0 0 [] = some (0, 0, []) ∧
    hashRandomData chunks N fuel = some "" := by
  obtain ⟨f, rfl⟩ : ∃ f, fuel = f + 1 := ⟨fuel - 1, by omega⟩
  have hloop : hashLoopData chunks (f + 1) N 0 0 [] = some (0, 0, []) := by
    rw [hashLoopData_succ, if_neg (by omega)]
  refine ⟨hloop, ?_⟩
  unfold hashRandomData
  rw [hloop]
  rfl

/-- C10 witness: target 0 yields the empty string. -/
theorem hashRandomData_nonpositive_witness :
    hashRandomData (fun _ => List.replicate 1024 0) 0 1 = some "" :=
  (hashRandomData_nonpositive _ 0 1 (by decide) (by decide)).2

end PromApp
